import Mathlib

/-!
Shallow embedding of two stress-ng stressors:
  * `src/stress-lockofd.c` — advisory OFD byte-range lock contention with a
    bounded FIFO tracking list (head/tail linked list plus a free pool);
  * `src/stress-membarrier.c` — membarrier syscall exercising across a
    capability bitmask, with per-thread metrics aggregated into one rate.

Pure data manipulation is translated into Lean functions; kernel calls
(`fcntl`, `shim_membarrier`, allocation, wall-clock reads) become explicit
input parameters describing their results, so each iteration of the loops is a
total function of the state and of those externally supplied results.
-/

namespace StressNG

/-! ## stress-lockofd.c: constants and data model -/

/-- The constant `#define LOCK_FILE_SIZE (1024 * 1024)`. -/
def LOCK_FILE_SIZE : Nat := 1024 * 1024

/-- The constant `#define LOCK_MAX (1024)`. -/
def LOCK_MAX : Nat := 1024

/-- One `lockofd_info_t` record: the `offset` and `len` fields. The `next`
pointer of the C struct is represented by the position of the record inside the
lists of `lockofd_info_list`. Offsets and lengths are always non-negative in
this stressor, so `Nat` suffices for the `off_t` fields. -/
structure lockofd_info where
  offset : Nat
  len : Nat
deriving Repr, DecidableEq

/-- The global `lockofd_infos` state (`lockofd_info_list_t`): the active list
from `head` to `tail` (represented front-first), the free pool (most recently
freed record first, as in the C LIFO free list), and the separately maintained
`length` counter field. -/
structure lockofd_info_list where
  head : List lockofd_info
  free : List lockofd_info
  length : Nat
deriving Repr, DecidableEq

/-- The initial state of the static `lockofd_infos`: all pointers NULL and
`length` zero. -/
def lockofd_infos_init : lockofd_info_list := ⟨[], [], 0⟩

/-- Function `stress_lockofd_info_new()`: pop a record off the free list when one is
available, otherwise `calloc` a zeroed record (`allocOk = false` models a
`calloc` failure, in which case the function returns NULL and nothing
changes). The record is appended at the tail and `length` is incremented; the
function returns the new record so the caller can fill in its fields. -/
def stress_lockofd_info_new (s : lockofd_info_list) (allocOk : Bool) :
    Option (lockofd_info_list × lockofd_info) :=
  match s.free with
  | n :: rest =>
      some ({ head := s.head ++ [n], free := rest, length := s.length + 1 }, n)
  | [] =>
      if allocOk then
        some ({ head := s.head ++ [⟨0, 0⟩], free := [], length := s.length + 1 },
              ⟨0, 0⟩)
      else
        none

/-- Function `stress_lockofd_info_head_remove()`: when the list is non-empty, unlink the
head record, push it onto the free list and decrement `length`; on an empty
list do nothing. -/
def stress_lockofd_info_head_remove (s : lockofd_info_list) : lockofd_info_list :=
  match s.head with
  | [] => s
  | h :: rest => { head := rest, free := h :: s.free, length := s.length - 1 }

/-- Lines 188–194 of the contention loop: `stress_lockofd_info_new()` followed
by storing `offset` and `len` into the returned (tail) record. `none` models
the fatal `calloc` failure path. -/
def stress_lockofd_push (s : lockofd_info_list) (allocOk : Bool)
    (offset len : Nat) : Option lockofd_info_list :=
  match stress_lockofd_info_new s allocOk with
  | none => none
  | some (s', _) =>
      some { s' with head := s'.head.dropLast ++ [⟨offset, len⟩] }

/-- The `struct flock` data of an `F_UNLCK` request issued by
`stress_lockofd_unlock` (its `l_start` and `l_len` fields). -/
structure UnlockCall where
  l_start : Nat
  l_len : Nat
deriving Repr, DecidableEq

/-- Function `stress_lockofd_unlock()`: on an empty list return 0 immediately without
touching the kernel. Otherwise build the unlock request from the head record,
remove the head (moving it to the free pool), and only then issue
`fcntl(fd, F_OFD_SETLK, &f)`, whose success is the external input `fcntlOk`.
Returns the C return value, the new state, and the unlock request that was
issued (`none` when no `fcntl` call was made). -/
def stress_lockofd_unlock (s : lockofd_info_list) (fcntlOk : Bool) :
    Int × lockofd_info_list × Option UnlockCall :=
  match s.head with
  | [] => (0, s, none)
  | h :: _ =>
      let f : UnlockCall := ⟨h.offset, h.len⟩
      let s' := stress_lockofd_info_head_remove s
      if fcntlOk then (0, s', some f) else (-1, s', some f)

/-! ## stress-lockofd.c: the contention loop -/

/-- Result of the `fcntl(fd, F_OFD_GETLK, &f)` call at line 182:
either the syscall itself fails (`rc < 0`), or it succeeds, in which case the
kernel reports through the `struct flock` whether a conflicting lock holds the
requested range (`conflict = true`) or the range is free (the struct comes
back with `l_type = F_UNLCK`, `conflict = false`). Either way the call only
queries: no lock is ever acquired. -/
inductive GetlkResult where
  | err
  | ok (conflict : Bool)
deriving Repr, DecidableEq

/-- The per-iteration external inputs of the contention loop: the two
pseudo-random draws, the `F_OFD_GETLK` outcome, the success of the eviction
unlock (consulted only when an eviction happens) and the success of `calloc`
(consulted only when the free pool is empty). -/
structure IterInput where
  v16 : Nat
  v64 : Nat
  getlk : GetlkResult
  unlockOk : Bool
  allocOk : Bool
deriving Repr, DecidableEq

/-- Outcome of one iteration of the `do { ... } while` body in
`stress_lockofd_contention`: either the loop continues with an updated list
state, or one of the two fatal paths (`return -1`) is taken. -/
inductive IterResult where
  | ok (s : lockofd_info_list)
  | fatal
deriving Repr, DecidableEq

/-- Line 173: `len = (mwc16() + 1) & 0xfff;`. -/
def lock_len (v16 : Nat) : Nat := (v16 + 1) &&& 0xfff

/-- Line 174: `offset = mwc64() % (LOCK_FILE_SIZE - len);`. -/
def lock_offset (v64 len : Nat) : Nat := v64 % (LOCK_FILE_SIZE - len)

/-- Lines 169–171: when the tracking list has reached `LOCK_MAX`, evict the
oldest lock through `stress_lockofd_unlock`; a failing unlock (`< 0`) is the
fatal `return -1` path (`none`). -/
def lockofd_evict_phase (s : lockofd_info_list) (unlockOk : Bool) :
    Option lockofd_info_list :=
  if LOCK_MAX ≤ s.length then
    let r := stress_lockofd_unlock s unlockOk
    if r.1 < 0 then none else some r.2.1
  else
    some s

/-- Lines 173–196: draw the random range, issue `F_OFD_GETLK`, and on syscall
success append a record with the drawn `offset`/`len` (aborting on
allocation failure); on syscall failure `continue` without recording
anything. -/
def lockofd_record_phase (s1 : lockofd_info_list) (inp : IterInput) :
    IterResult :=
  let len := lock_len inp.v16
  let offset := lock_offset inp.v64 len
  match inp.getlk with
  | .err => .ok s1
  | .ok _ =>
      match stress_lockofd_push s1 inp.allocOk offset len with
      | none => .fatal
      | some s2 => .ok s2

/-- One iteration of the `do { ... } while` body of
`stress_lockofd_contention` (lines 163–196): the eviction check followed by
the draw/query/record sequence. -/
def stress_lockofd_iter (s : lockofd_info_list) (inp : IterInput) : IterResult :=
  match lockofd_evict_phase s inp.unlockOk with
  | none => .fatal
  | some s1 => lockofd_record_phase s1 inp

/-- The sequence of list states visited by running the contention loop body on
a list of per-iteration inputs, stopping at the first fatal iteration. -/
def runIters : lockofd_info_list → List IterInput → List lockofd_info_list
  | _, [] => []
  | s, i :: is =>
      match stress_lockofd_iter s i with
      | .ok s' => s' :: runIters s' is
      | .fatal => []

/-- A sequence of pushes through `stress_lockofd_info_new` (with the record
fields then filled in), each with a successful allocator, starting from state
`s`. -/
def pushAll (s : lockofd_info_list) (l : List (Nat × Nat)) :
    Option lockofd_info_list :=
  l.foldl (fun acc p => acc.bind fun st => stress_lockofd_push st true p.1 p.2)
    (some s)

/-- A run of `k` successive head removals, also returning the data of the records that
were removed, in removal order (each removed record is the head at the moment
`stress_lockofd_info_head_remove` runs). -/
def popK : lockofd_info_list → Nat → lockofd_info_list × List lockofd_info
  | s, 0 => (s, [])
  | s, k + 1 =>
      match s.head with
      | [] => (s, [])
      | r :: _ =>
          let t := popK (stress_lockofd_info_head_remove s) k
          (t.1, r :: t.2)

/-! ## stress-membarrier.c: constants and data model -/

/-- The constant `MEMBARRIER_CMD_SHARED = MEMBARRIER_CMD_GLOBAL = (1 << 0)`. -/
def MEMBARRIER_CMD_SHARED : Nat := 1

/-- The constant `MEMBARRIER_CMD_FLAG_CPU = (1 << 0)` (the per-CPU flag, present in this
build since the fallback enum always defines it). -/
def MEMBARRIER_CMD_FLAG_CPU : Int := 1

/-- The constant `INT_MAX`, the deliberately out-of-range `cpu_id` of the illegal-argument
probe. -/
def INT_MAX : Int := 2 ^ 31 - 1

/-- The metrics fields of one `membarrier_info_t` slot: the cumulative
`duration` and `count` doubles, modelled as exact rationals. -/
structure membarrier_info where
  duration : ℚ
  count : ℚ
deriving Repr, DecidableEq

/-- The argument triple of one `shim_membarrier(cmd, flags, cpu_id)` call. -/
structure MembarrierCall where
  cmd : Nat
  flags : Int
  cpu_id : Int
deriving Repr, DecidableEq

/-- The width of `unsigned int i`, over which `for (i = 1; i; i <<= 1)`
enumerates the bits `2^0 .. 2^31`. -/
def MEMBARRIER_BITS : Nat := 32

/-- The body of the first loop of `stress_membarrier_exercise` at one bit
position `b`: when bit `b` is set in `mask`, call the syscall with command
`2^b` and zero flags, and (since `MEMBARRIER_CMD_FLAG_CPU` is defined) call
it again with the per-CPU flag; when the bit is clear, do nothing. -/
def legalBlock (mask b : Nat) : List MembarrierCall :=
  if mask.testBit b then
    [⟨2 ^ b, 0, 0⟩, ⟨2 ^ b, MEMBARRIER_CMD_FLAG_CPU, 0⟩]
  else
    []

/-- The first loop of `stress_membarrier_exercise` (lines 87–99): the bits of
the 32-bit word in increasing order, each contributing its `legalBlock`. Each
such call bumps `info->count` by 1, so the legal sweep's contribution to the
counter is the length of this list. -/
def legalSweep (mask : Nat) : List MembarrierCall :=
  (List.range MEMBARRIER_BITS).flatMap (legalBlock mask)

/-- The second loop (lines 102–110): for every set bit, probe the syscall with
all-ones flags (`~0`, i.e. `-1` as an `int`) and with an out-of-range
`cpu_id`; both results are discarded via `VOID_RET` and neither touches
`info->count` or `info->duration`. -/
def illegalFlagProbes (mask : Nat) : List MembarrierCall :=
  (List.range MEMBARRIER_BITS).flatMap fun b =>
    if mask.testBit b then
      [⟨2 ^ b, -1, 0⟩, ⟨2 ^ b, 0, INT_MAX⟩]
    else
      []

/-- The third loop (lines 113–118): scan the bits in increasing order, issue a
single probe at the first bit NOT in `mask`, and `break`; the result is
discarded. When every bit of the word is set no probe is issued. -/
def illegalCmdProbe (mask : Nat) : Option MembarrierCall :=
  match (List.range MEMBARRIER_BITS).find? (fun b => !mask.testBit b) with
  | some b => some ⟨2 ^ b, 0, 0⟩
  | none => none

/-- The observable behaviour of one successful `stress_membarrier_exercise`
cycle: the updated metrics slot and the three batches of syscall invocations
in program order. -/
structure ExerciseOutcome where
  info : membarrier_info
  legal : List MembarrierCall
  illegalFlags : List MembarrierCall
  illegalCmd : Option MembarrierCall
deriving Repr, DecidableEq

/-- Function `stress_membarrier_exercise`: query the capability mask (line 78); a
failing query is the fatal `return -1` path. Otherwise run the legal sweep
(each call counted, the whole sweep's wall-clock cost `sweepTime` added to
`info->duration`), then the discarded illegal-flag probes, then the single
illegal-command probe. `queryRet` is the externally supplied syscall result
and `sweepTime` the externally supplied elapsed time of the timed section. -/
def stress_membarrier_exercise (queryRet : Except Int Nat) (sweepTime : ℚ)
    (info : membarrier_info) : Option ExerciseOutcome :=
  match queryRet with
  | .error _ => none
  | .ok mask =>
      some { info := { duration := info.duration + sweepTime,
                       count := info.count + (legalSweep mask).length },
             legal := legalSweep mask,
             illegalFlags := illegalFlagProbes mask,
             illegalCmd := illegalCmdProbe mask }

/-! ## stress-membarrier.c: precheck and aggregation -/

/-- The errno `ENOSYS`, the value distinguishing "facility not supported at all". -/
def ENOSYS : Nat := 38

/-- Outcome of the capability precheck at the top of `stress_membarrier`
(lines 156–173): skip (`EXIT_NOT_IMPLEMENTED`), hard failure
(`EXIT_FAILURE`), or fall through to creating the worker threads. -/
inductive PrecheckOutcome where
  | not_implemented
  | failure
  | proceed
deriving Repr, DecidableEq

/-- The precheck: `shim_membarrier(MEMBARRIER_CMD_QUERY, 0, 0)` either fails
with some errno (`.error e`) or returns a non-negative mask (`.ok ret`).
`ENOSYS` means skip; any other errno is a hard failure; a mask without the
`MEMBARRIER_CMD_SHARED` bit also means skip; otherwise the stressor proceeds
to start its threads. -/
def stress_membarrier_precheck (query : Except Nat Nat) : PrecheckOutcome :=
  match query with
  | .error e => if e = ENOSYS then .not_implemented else .failure
  | .ok ret =>
      if ret &&& MEMBARRIER_CMD_SHARED = 0 then .not_implemented else .proceed

/-- The aggregation loop of `stress_membarrier` (lines 205–208): fold over the
`MAX_MEMBARRIER_THREADS + 1` info slots accumulating `duration` and `count`. -/
def stress_membarrier_totals (infos : List membarrier_info) : ℚ × ℚ :=
  infos.foldl (fun acc i => (acc.1 + i.duration, acc.2 + i.count)) (0, 0)

/-- Line 209: `rate = (duration > 0) ? count / duration : 0.0;`. -/
def stress_membarrier_rate (infos : List membarrier_info) : ℚ :=
  let t := stress_membarrier_totals infos
  if 0 < t.1 then t.2 / t.1 else 0

/-- The number of set bits of a natural number (used to state the claim that
one exercise cycle performs `2 × popcount(mask)` counted calls). -/
def popCount (m : Nat) : Nat :=
  if m = 0 then 0 else popCount (m / 2) + m % 2
decreasing_by exact Nat.div_lt_self (Nat.pos_of_ne_zero (by assumption)) (by omega)

/-! ## Helper lemmas about the lock tracking list -/

/-- Whenever `stress_lockofd_push` succeeds, the new record is appended at the
tail, the free pool loses its first entry (if it had one), and `length` grows
by one. -/
theorem stress_lockofd_push_eq_some (s : lockofd_info_list) (a : Bool)
    (o ln : Nat) (s' : lockofd_info_list)
    (h : stress_lockofd_push s a o ln = some s') :
    s' = ⟨s.head ++ [⟨o, ln⟩], s.free.tail, s.length + 1⟩ := by
  rcases s with ⟨hd, fr, n⟩
  cases fr with
  | nil =>
      cases a with
      | false => simp [stress_lockofd_push, stress_lockofd_info_new] at h
      | true =>
          simp [stress_lockofd_push, stress_lockofd_info_new,
            List.dropLast_concat] at h
          exact h.symm
  | cons f fs =>
      simp [stress_lockofd_push, stress_lockofd_info_new,
        List.dropLast_concat] at h
      exact h.symm

/-- With a successful allocator, `stress_lockofd_push` always succeeds and
appends at the tail. -/
theorem stress_lockofd_push_true (s : lockofd_info_list) (o ln : Nat) :
    stress_lockofd_push s true o ln =
      some ⟨s.head ++ [⟨o, ln⟩], s.free.tail, s.length + 1⟩ := by
  rcases s with ⟨hd, fr, n⟩
  cases fr <;>
    simp [stress_lockofd_push, stress_lockofd_info_new, List.dropLast_concat]

/-- A head removal leaves the tail of the active list. -/
theorem head_remove_head (s : lockofd_info_list) :
    (stress_lockofd_info_head_remove s).head = s.head.tail := by
  rcases s with ⟨hd, fr, n⟩
  cases hd <;> simp [stress_lockofd_info_head_remove]

/-- When the eviction phase does not hit the fatal unlock-failure path, the
surviving state is the head removal of the input state when the list was
full, and the unchanged state otherwise. -/
theorem lockofd_evict_phase_some (s : lockofd_info_list) (b : Bool)
    (s1 : lockofd_info_list) (h : lockofd_evict_phase s b = some s1) :
    s1 = if LOCK_MAX ≤ s.length then stress_lockofd_info_head_remove s else s := by
  by_cases hev : LOCK_MAX ≤ s.length
  · rw [if_pos hev]
    rcases hh : s.head with _ | ⟨r, t⟩
    · have hu : stress_lockofd_unlock s b = (0, s, none) := by
        rcases s with ⟨hd, fr, n⟩
        simp only at hh
        subst hh
        simp [stress_lockofd_unlock]
      have hr : stress_lockofd_info_head_remove s = s := by
        rcases s with ⟨hd, fr, n⟩
        simp only at hh
        subst hh
        simp [stress_lockofd_info_head_remove]
      rw [lockofd_evict_phase, if_pos hev, hu] at h
      simp at h
      rw [← h, hr]
    · cases b with
      | false =>
          have hu : stress_lockofd_unlock s false =
              (-1, stress_lockofd_info_head_remove s,
               some ⟨r.offset, r.len⟩) := by
            rcases s with ⟨hd, fr, n⟩
            simp only at hh
            subst hh
            simp [stress_lockofd_unlock]
          rw [lockofd_evict_phase, if_pos hev, hu] at h
          simp at h
      | true =>
          have hu : stress_lockofd_unlock s true =
              (0, stress_lockofd_info_head_remove s,
               some ⟨r.offset, r.len⟩) := by
            rcases s with ⟨hd, fr, n⟩
            simp only at hh
            subst hh
            simp [stress_lockofd_unlock]
          rw [lockofd_evict_phase, if_pos hev, hu] at h
          simp at h
          exact h.symm
  · rw [if_neg hev]
    rw [lockofd_evict_phase, if_neg hev] at h
    simp at h
    exact h.symm

/-- The record phase either leaves the state alone (failed `F_OFD_GETLK`
call) or appends the drawn record at the tail. -/
theorem lockofd_record_phase_ok (s1 : lockofd_info_list) (inp : IterInput)
    (s' : lockofd_info_list) (h : lockofd_record_phase s1 inp = .ok s') :
    s' = s1 ∨
    s' = ⟨s1.head ++ [⟨lock_offset inp.v64 (lock_len inp.v16),
                      lock_len inp.v16⟩],
          s1.free.tail, s1.length + 1⟩ := by
  rw [lockofd_record_phase] at h
  cases hg : inp.getlk with
  | err =>
      rw [hg] at h
      simp at h
      exact Or.inl h.symm
  | ok c =>
      rw [hg] at h
      rcases hp : stress_lockofd_push s1 inp.allocOk
          (lock_offset inp.v64 (lock_len inp.v16)) (lock_len inp.v16) with _ | s2
      · rw [hp] at h
        simp at h
      · rw [hp] at h
        simp at h
        rw [← h]
        exact Or.inr (stress_lockofd_push_eq_some _ _ _ _ _ hp)

/-- Shape of a non-fatal loop iteration: the state that survives is the
(possibly evicted) state, either unchanged or with the drawn record appended
at the tail. -/
theorem stress_lockofd_iter_ok (s : lockofd_info_list) (inp : IterInput)
    (s' : lockofd_info_list) (h : stress_lockofd_iter s inp = .ok s') :
    ∃ s1, s1 = (if LOCK_MAX ≤ s.length then stress_lockofd_info_head_remove s
                else s) ∧
      (s' = s1 ∨
       s' = ⟨s1.head ++ [⟨lock_offset inp.v64 (lock_len inp.v16),
                         lock_len inp.v16⟩],
             s1.free.tail, s1.length + 1⟩) := by
  rw [stress_lockofd_iter] at h
  rcases he : lockofd_evict_phase s inp.unlockOk with _ | s1
  · rw [he] at h
    simp at h
  · rw [he] at h
    exact ⟨s1, lockofd_evict_phase_some s inp.unlockOk s1 he,
           lockofd_record_phase_ok s1 inp s' h⟩

/-! ## C2: the generated lock ranges -/

/-- C2 counterexample: the claim asserts every generated length lies in
`[1, 4096]`, but the draw `mwc16() = 4095` produces
`len = (4095 + 1) & 0xfff = 0`, outside that interval. -/
theorem C2_counterexample :
    lock_len 4095 = 0 ∧ ¬ (1 ≤ lock_len 4095 ∧ lock_len 4095 ≤ 4096) := by
  decide

/-- C2 (amended): for every 16-bit and 64-bit random draw, the generated
length satisfies `len ≤ 4095` (it can be `0`, and never reaches `4096`), the
offset satisfies `offset < LOCK_FILE_SIZE - len`, and hence the requested
range stays in bounds: `offset + len < LOCK_FILE_SIZE`. -/
theorem C2_range_amended (v16 v64 : Nat) :
    lock_len v16 ≤ 4095 ∧
    lock_offset v64 (lock_len v16) < LOCK_FILE_SIZE - lock_len v16 ∧
    lock_offset v64 (lock_len v16) + lock_len v16 < LOCK_FILE_SIZE := by
  have hlen : lock_len v16 < 2 ^ 12 :=
    Nat.and_lt_two_pow (v16 + 1) (by decide)
  have hpos : 0 < LOCK_FILE_SIZE - lock_len v16 := by
    unfold LOCK_FILE_SIZE
    omega
  have hoff : lock_offset v64 (lock_len v16) < LOCK_FILE_SIZE - lock_len v16 :=
    Nat.mod_lt _ hpos
  refine ⟨by omega, hoff, ?_⟩
  unfold LOCK_FILE_SIZE at hoff ⊢
  omega

/-! ## C1: what an iteration records -/

/-- C1 counterexample: starting from the empty list, with an `F_OFD_GETLK`
call that succeeds while reporting the range locked elsewhere
(`conflict = true`), the claim says the iteration records nothing and leaves
the list unchanged; the code nevertheless appends the record `⟨0, 1⟩`. -/
theorem C1_counterexample :
    stress_lockofd_iter lockofd_infos_init ⟨0, 0, .ok true, true, true⟩ ≠
      .ok lockofd_infos_init ∧
    stress_lockofd_iter lockofd_infos_init ⟨0, 0, .ok true, true, true⟩ =
      .ok ⟨[⟨0, 1⟩], [], 1⟩ := by
  decide

/-- C1 (amended): in an iteration that needs no eviction, a record is
appended if and only if the `F_OFD_GETLK` fcntl call itself returns success —
regardless of whether the kernel reported a conflicting lock on the range
(the call only queries; it never acquires a lock and never fails merely
because the range is held elsewhere). Only a failing call (`rc < 0`) skips
the iteration and leaves the list unchanged. -/
theorem C1_record_iff_getlk_ok (s : lockofd_info_list) (inp : IterInput)
    (hlen : s.length < LOCK_MAX) (halloc : inp.allocOk = true) :
    (inp.getlk = .err → stress_lockofd_iter s inp = .ok s) ∧
    (∀ c, inp.getlk = .ok c →
      stress_lockofd_iter s inp =
        .ok ⟨s.head ++ [⟨lock_offset inp.v64 (lock_len inp.v16),
                         lock_len inp.v16⟩],
             s.free.tail, s.length + 1⟩) := by
  have hev : lockofd_evict_phase s inp.unlockOk = some s := by
    rw [lockofd_evict_phase, if_neg (by omega)]
  constructor
  · intro hg
    simp [stress_lockofd_iter, hev, lockofd_record_phase, hg]
  · intro c hg
    simp [stress_lockofd_iter, hev, lockofd_record_phase, hg, halloc,
      stress_lockofd_push_true]

/-- Witness for C1: from the empty list with a conflict-free successful
query, the record `⟨9, 8⟩` drawn from `v16 = 7`, `v64 = 9` is appended. -/
theorem C1_record_iff_getlk_ok_witness :
    stress_lockofd_iter lockofd_infos_init ⟨7, 9, .ok false, true, true⟩ =
      .ok ⟨[⟨9, 8⟩], [], 1⟩ := by
  rw [(C1_record_iff_getlk_ok lockofd_infos_init ⟨7, 9, .ok false, true, true⟩
        (by decide) rfl).2 false rfl]
  decide

/-! ## C9: operations on the empty list -/

/-- C9: on an empty tracking list, `stress_lockofd_unlock` returns `0`
without issuing any `fcntl` unlock and without changing the state, and
`stress_lockofd_info_head_remove` is a no-op, so the `length` counter is
never decremented below zero. -/
theorem C9_empty_list_noop (s : lockofd_info_list) (b : Bool)
    (h : s.head = []) :
    stress_lockofd_unlock s b = (0, s, none) ∧
    stress_lockofd_info_head_remove s = s ∧
    (stress_lockofd_info_head_remove s).length = s.length := by
  rcases s with ⟨hd, fr, n⟩
  subst h
  simp [stress_lockofd_unlock, stress_lockofd_info_head_remove]

/-- Witness for C9 at the initial (empty) state. -/
theorem C9_empty_list_noop_witness :
    stress_lockofd_unlock lockofd_infos_init true = (0, lockofd_infos_init, none) ∧
    stress_lockofd_info_head_remove lockofd_infos_init = lockofd_infos_init ∧
    (stress_lockofd_info_head_remove lockofd_infos_init).length =
      lockofd_infos_init.length :=
  C9_empty_list_noop lockofd_infos_init true rfl

/-! ## C10: eviction is not atomic on unlock failure -/

/-- C10: on a non-empty list, `stress_lockofd_unlock` removes the head record
and moves it to the free pool before issuing the `F_OFD_SETLK` unlock, so the
state left behind by a failed unlock (which returns `-1`) is exactly the
state left behind by a successful one; the issued unlock request covers the
removed record's range. -/
theorem C10_unlock_evicts_before_fcntl (s : lockofd_info_list)
    (r : lockofd_info) (t : List lockofd_info) (hs : s.head = r :: t) :
    (stress_lockofd_unlock s false).1 = -1 ∧
    (stress_lockofd_unlock s false).2.1 = stress_lockofd_info_head_remove s ∧
    (stress_lockofd_unlock s true).2.1 = stress_lockofd_info_head_remove s ∧
    (stress_lockofd_unlock s false).2.2 = some ⟨r.offset, r.len⟩ ∧
    (stress_lockofd_unlock s true).2.2 = some ⟨r.offset, r.len⟩ ∧
    (stress_lockofd_info_head_remove s).head = t ∧
    (stress_lockofd_info_head_remove s).free = r :: s.free := by
  rcases s with ⟨hd, fr, n⟩
  simp only at hs
  subst hs
  simp [stress_lockofd_unlock, stress_lockofd_info_head_remove]

/-- Witness for C10 on a concrete one-element list. -/
theorem C10_unlock_evicts_before_fcntl_witness :
    (stress_lockofd_unlock ⟨[⟨5, 7⟩], [], 1⟩ false).1 = -1 ∧
    (stress_lockofd_unlock ⟨[⟨5, 7⟩], [], 1⟩ false).2.1 =
      stress_lockofd_info_head_remove ⟨[⟨5, 7⟩], [], 1⟩ ∧
    (stress_lockofd_unlock ⟨[⟨5, 7⟩], [], 1⟩ true).2.1 =
      stress_lockofd_info_head_remove ⟨[⟨5, 7⟩], [], 1⟩ ∧
    (stress_lockofd_unlock ⟨[⟨5, 7⟩], [], 1⟩ false).2.2 = some ⟨5, 7⟩ ∧
    (stress_lockofd_unlock ⟨[⟨5, 7⟩], [], 1⟩ true).2.2 = some ⟨5, 7⟩ ∧
    (stress_lockofd_info_head_remove ⟨[⟨5, 7⟩], [], 1⟩).head = [] ∧
    (stress_lockofd_info_head_remove ⟨[⟨5, 7⟩], [], 1⟩).free = [⟨5, 7⟩] :=
  C10_unlock_evicts_before_fcntl ⟨[⟨5, 7⟩], [], 1⟩ ⟨5, 7⟩ [] rfl

/-! ## C3: FIFO order -/

/-- Pushing a whole list of records appends them all at the tail in order,
consumes free-pool entries front-first, and adds the number of pushes to the
`length` counter. -/
theorem pushAll_eq (l : List (Nat × Nat)) :
    ∀ s : lockofd_info_list,
      pushAll s l =
        some ⟨s.head ++ l.map (fun p => ⟨p.1, p.2⟩),
              s.free.drop l.length, s.length + l.length⟩ := by
  induction l with
  | nil =>
      intro s
      rcases s with ⟨hd, fr, n⟩
      simp [pushAll]
  | cons p l ih =>
      intro s
      have hstep : pushAll s (p :: l) =
          pushAll ⟨s.head ++ [⟨p.1, p.2⟩], s.free.tail, s.length + 1⟩ l := by
        simp [pushAll, stress_lockofd_push_true]
      have hdrop : s.free.tail.drop l.length = s.free.drop (l.length + 1) := by
        rw [← List.drop_one, List.drop_drop, Nat.add_comm]
      rw [hstep, ih]
      simp [hdrop]
      omega

/-- The records removed by `k` head removals are the first `k` elements of
the active list, in order. -/
theorem popK_records (k : Nat) :
    ∀ s : lockofd_info_list, k ≤ s.head.length →
      (popK s k).2 = s.head.take k := by
  induction k with
  | zero => intro s _; simp [popK]
  | succ k ih =>
      intro s hk
      rcases s with ⟨hd, fr, n⟩
      cases hd with
      | nil => simp at hk
      | cons r t =>
          have hrem :
              stress_lockofd_info_head_remove ⟨r :: t, fr, n⟩ =
                ⟨t, r :: fr, n - 1⟩ := rfl
          have ht : k ≤ (⟨t, r :: fr, n - 1⟩ : lockofd_info_list).head.length := by
            show k ≤ t.length
            have hk' : k + 1 ≤ t.length + 1 := hk
            omega
          simp [popK, hrem, ih ⟨t, r :: fr, n - 1⟩ ht]

/-- C3: the tracking list is a strict FIFO. Starting from the empty list, `N`
pushes (each `stress_lockofd_info_new` appending at the tail, with the
record's offset/length then stored) leave exactly the pushed records in push
order, and any `k ≤ N` subsequent head removals remove exactly the first `k`
pushed records, oldest first. -/
theorem C3_fifo (l : List (Nat × Nat)) (k : Nat) (s : lockofd_info_list)
    (hk : k ≤ l.length)
    (hp : pushAll lockofd_infos_init l = some s) :
    s.head = l.map (fun p => ⟨p.1, p.2⟩) ∧
    (popK s k).2 = (l.take k).map (fun p => ⟨p.1, p.2⟩) := by
  rw [pushAll_eq l lockofd_infos_init] at hp
  have hs : s = ⟨l.map (fun p => ⟨p.1, p.2⟩), [], l.length⟩ := by
    have h2 := Option.some.inj hp
    simp [lockofd_infos_init] at h2
    exact h2.symm
  subst hs
  refine ⟨rfl, ?_⟩
  have hlen : k ≤ ((⟨l.map (fun p => ⟨p.1, p.2⟩), [], l.length⟩ :
      lockofd_info_list)).head.length := by
    show k ≤ (l.map fun p => (⟨p.1, p.2⟩ : lockofd_info)).length
    simpa using hk
  rw [popK_records k _ hlen]
  show (l.map fun p => (⟨p.1, p.2⟩ : lockofd_info)).take k = _
  simp [List.map_take]

/-- Witness for C3: push `(1,2)` then `(3,4)` from the empty list and pop
once; the pop removes `⟨1,2⟩`, the oldest record. -/
theorem C3_fifo_witness :
    (1 : Nat) ≤ ([((1 : Nat), (2 : Nat)), (3, 4)]).length ∧
    pushAll lockofd_infos_init [(1, 2), (3, 4)] =
      some ⟨[⟨1, 2⟩, ⟨3, 4⟩], [], 2⟩ ∧
    ((⟨[⟨1, 2⟩, ⟨3, 4⟩], [], 2⟩ : lockofd_info_list).head =
        [((1 : Nat), (2 : Nat)), (3, 4)].map (fun p => ⟨p.1, p.2⟩) ∧
      (popK ⟨[⟨1, 2⟩, ⟨3, 4⟩], [], 2⟩ 1).2 =
        ([((1 : Nat), (2 : Nat)), (3, 4)].take 1).map (fun p => ⟨p.1, p.2⟩)) :=
  ⟨by decide, by decide, C3_fifo [(1, 2), (3, 4)] 1 _ (by decide) (by decide)⟩

/-! ## C4: the capacity bound -/

/-- One loop iteration preserves the invariant that the `length` counter
matches the active list and stays within `LOCK_MAX`. -/
theorem stress_lockofd_iter_inv (s : lockofd_info_list) (inp : IterInput)
    (s' : lockofd_info_list)
    (h1 : s.length = s.head.length) (h2 : s.length ≤ LOCK_MAX)
    (h : stress_lockofd_iter s inp = .ok s') :
    s'.length = s'.head.length ∧ s'.length ≤ LOCK_MAX := by
  obtain ⟨s1, hs1, hcase⟩ := stress_lockofd_iter_ok s inp s' h
  have hAB : s1.length = s1.head.length ∧ s1.length < LOCK_MAX := by
    by_cases hev : LOCK_MAX ≤ s.length
    · rw [if_pos hev] at hs1
      rcases hc : s.head with _ | ⟨r, t⟩
      · exfalso
        rw [hc] at h1
        simp at h1
        rw [LOCK_MAX] at hev
        omega
      · have hrm : stress_lockofd_info_head_remove s =
            ⟨t, r :: s.free, s.length - 1⟩ := by
          rcases s with ⟨hd, fr, n⟩
          simp only at hc
          subst hc
          rfl
        rw [hs1, hrm]
        rw [hc] at h1
        simp at h1
        rw [LOCK_MAX] at hev h2 ⊢
        constructor
        · show s.length - 1 = t.length
          omega
        · show s.length - 1 < 1024
          omega
    · rw [if_neg hev] at hs1
      rw [hs1]
      exact ⟨h1, by omega⟩
  rcases hcase with hc | hc
  · rw [hc]
    exact ⟨hAB.1, by omega⟩
  · rw [hc]
    refine ⟨?_, ?_⟩
    · show s1.length + 1 = (s1.head ++ [_]).length
      simp [hAB.1]
    · show s1.length + 1 ≤ LOCK_MAX
      omega

/-- Every state visited by the contention loop keeps `length` equal to the
active list's length and bounded by `LOCK_MAX`. -/
theorem runIters_inv (inps : List IterInput) :
    ∀ s : lockofd_info_list,
      s.length = s.head.length → s.length ≤ LOCK_MAX →
      ∀ s' ∈ runIters s inps,
        s'.length = s'.head.length ∧ s'.length ≤ LOCK_MAX := by
  induction inps with
  | nil => intro s _ _ s' hmem; simp [runIters] at hmem
  | cons i is ih =>
      intro s h1 h2 s' hmem
      cases hi : stress_lockofd_iter s i with
      | fatal => rw [runIters, hi] at hmem; simp at hmem
      | ok s1 =>
          rw [runIters, hi] at hmem
          have hinv1 := stress_lockofd_iter_inv s i s1 h1 h2 hi
          rcases List.mem_cons.1 hmem with heq | htl
          · subst heq; exact hinv1
          · exact ih s1 hinv1.1 hinv1.2 s' htl

/-- C4: starting from the empty list, the tracking list's length never
exceeds `LOCK_MAX = 1024` at any point of any execution of the contention
loop; and whenever an iteration starts with the list full, the oldest record
is evicted (the head is removed) before the iteration's new record, if any,
is admitted at the tail. -/
theorem C4_capacity_bound :
    (∀ (inps : List IterInput) (s' : lockofd_info_list),
        s' ∈ runIters lockofd_infos_init inps → s'.length ≤ LOCK_MAX) ∧
    (∀ (s : lockofd_info_list) (inp : IterInput) (s' : lockofd_info_list),
        LOCK_MAX ≤ s.length → stress_lockofd_iter s inp = .ok s' →
        s'.head = s.head.tail ∨
        s'.head = s.head.tail ++
          [⟨lock_offset inp.v64 (lock_len inp.v16), lock_len inp.v16⟩]) := by
  constructor
  · intro inps s' hmem
    exact (runIters_inv inps lockofd_infos_init rfl (by decide) s' hmem).2
  · intro s inp s' hev h
    obtain ⟨s1, hs1, hcase⟩ := stress_lockofd_iter_ok s inp s' h
    rw [if_pos hev] at hs1
    rcases hcase with hc | hc
    · left
      rw [hc, hs1, head_remove_head]
    · right
      rw [hc]
      show s1.head ++ _ = _
      rw [hs1, head_remove_head]

/-- Witness for C4: a one-iteration trace from the empty list stays within
the bound, and a full-list iteration evicts the head before admitting the new
tail record. -/
theorem C4_capacity_bound_witness :
    ((⟨[⟨0, 1⟩], [], 1⟩ : lockofd_info_list) ∈
        runIters lockofd_infos_init [⟨0, 0, .ok true, true, true⟩] ∧
      (⟨[⟨0, 1⟩], [], 1⟩ : lockofd_info_list).length ≤ LOCK_MAX) ∧
    (LOCK_MAX ≤ (⟨[], [], 1024⟩ : lockofd_info_list).length ∧
      stress_lockofd_iter ⟨[], [], 1024⟩ ⟨0, 0, .ok true, true, true⟩ =
        .ok ⟨[⟨0, 1⟩], [], 1025⟩ ∧
      ((⟨[⟨0, 1⟩], [], 1025⟩ : lockofd_info_list).head =
          (⟨[], [], 1024⟩ : lockofd_info_list).head.tail ∨
        (⟨[⟨0, 1⟩], [], 1025⟩ : lockofd_info_list).head =
          (⟨[], [], 1024⟩ : lockofd_info_list).head.tail ++
            [⟨lock_offset 0 (lock_len 0), lock_len 0⟩])) :=
  ⟨⟨by decide, C4_capacity_bound.1 [⟨0, 0, .ok true, true, true⟩] _ (by decide)⟩,
   by decide, by decide,
   C4_capacity_bound.2 ⟨[], [], 1024⟩ ⟨0, 0, .ok true, true, true⟩
     ⟨[⟨0, 1⟩], [], 1025⟩ (by decide) (by decide)⟩

/-! ## Bit-counting helpers -/

/-- The recursion equation of `popCount`, valid for every argument. -/
theorem popCount_rec (m : Nat) : popCount m = popCount (m / 2) + m % 2 := by
  by_cases hm : m = 0
  · subst hm
    show popCount 0 = popCount 0 + 0
    omega
  · rw [popCount]
    simp [hm]

/-- Counting the set bits below `w` of a number smaller than `2^w` is exactly
its popcount. -/
theorem countP_testBit (w : Nat) : ∀ m : Nat, m < 2 ^ w →
    (List.range w).countP (fun b => m.testBit b) = popCount m := by
  induction w with
  | zero =>
      intro m hm
      have hm0 : m = 0 := by
        have := hm
        simp at this
        omega
      subst hm0
      have h0 : popCount 0 = 0 := by rw [popCount]; simp
      simp [h0]
  | succ w ih =>
      intro m hm
      have hdiv : m / 2 < 2 ^ w := by
        rw [pow_succ] at hm
        omega
      rw [List.range_succ_eq_map, List.countP_cons, List.countP_map]
      have hcomp : ((fun b => m.testBit b) ∘ Nat.succ) =
          fun b => (m / 2).testBit b := by
        funext b
        simp [Function.comp, Nat.succ_eq_add_one, Nat.testBit_succ]
      rw [hcomp, ih (m / 2) hdiv]
      conv_rhs => rw [popCount_rec m]
      rw [Nat.testBit_zero]
      rcases Nat.mod_two_eq_zero_or_one m with h0 | h0 <;> simp [h0]

/-- Every call of a legal block at bit `b` carries command `2^b`. -/
theorem legalBlock_cmd (mask b : Nat) (c : MembarrierCall)
    (hc : c ∈ legalBlock mask b) : c.cmd = 2 ^ b := by
  rw [legalBlock] at hc
  by_cases hp : mask.testBit b
  · rw [if_pos hp] at hc
    simp at hc
    rcases hc with rfl | rfl <;> rfl
  · rw [if_neg hp] at hc
    simp at hc

/-- A generic length computation for lists built from two-element or empty
blocks. -/
theorem flatMap_ite_two_length {α : Type} (p : Nat → Bool) (f g : Nat → α)
    (l : List Nat) :
    (l.flatMap fun b => if p b then [f b, g b] else []).length =
      2 * l.countP p := by
  induction l with
  | nil => simp
  | cons a l ih =>
      by_cases hp : p a
      · simp [List.flatMap_cons, hp, ih, List.countP_cons]
        omega
      · simp [List.flatMap_cons, hp, ih, List.countP_cons]

/-- The legal sweep makes `2 × popcount(mask)` counted calls. -/
theorem legalSweep_length (mask : Nat) (hm : mask < 2 ^ MEMBARRIER_BITS) :
    (legalSweep mask).length = 2 * popCount mask := by
  have h := flatMap_ite_two_length (fun b => mask.testBit b)
    (fun b => (⟨2 ^ b, 0, 0⟩ : MembarrierCall))
    (fun b => (⟨2 ^ b, MEMBARRIER_CMD_FLAG_CPU, 0⟩ : MembarrierCall))
    (List.range MEMBARRIER_BITS)
  rw [legalSweep]
  have hblock : legalBlock mask = fun b =>
      if mask.testBit b then
        [(⟨2 ^ b, 0, 0⟩ : MembarrierCall), ⟨2 ^ b, MEMBARRIER_CMD_FLAG_CPU, 0⟩]
      else [] := by
    funext b
    rfl
  rw [hblock, h, countP_testBit MEMBARRIER_BITS mask hm]

/-- Summing a list-indexed family that is zero everywhere except at one
element of a duplicate-free list yields the value at that element. -/
theorem sum_map_single (l : List Nat) (hnd : l.Nodup) (b0 : Nat)
    (hb : b0 ∈ l) (g : Nat → Nat) (v : Nat)
    (hg : ∀ b ∈ l, g b = if b = b0 then v else 0) : (l.map g).sum = v := by
  induction l with
  | nil => cases hb
  | cons a l ih =>
      rw [List.map_cons, List.sum_cons]
      rcases List.mem_cons.1 hb with hab | hbl
      · subst hab
        rw [hg b0 (List.mem_cons_self b0 l), if_pos rfl]
        have hz : (l.map g).sum = 0 := by
          apply List.sum_eq_zero
          intro x hx
          obtain ⟨b, hbmem, rfl⟩ := List.mem_map.1 hx
          have hne : b ≠ b0 := by
            intro he
            exact (List.nodup_cons.1 hnd).1 (he ▸ hbmem)
          rw [hg b (List.mem_cons_of_mem _ hbmem), if_neg hne]
        rw [hz]
        omega
      · have ha : a ≠ b0 := by
          intro he
          exact (List.nodup_cons.1 hnd).1 (he ▸ hbl)
        rw [hg a (List.mem_cons_self a l), if_neg ha]
        rw [ih (List.nodup_cons.1 hnd).2 hbl
          (fun b hbm => hg b (List.mem_cons_of_mem _ hbm))]
        omega

/-- Each bit `b0 < 32` of the mask is exercised exactly once with zero flags
and exactly once with the per-CPU flag; an unset bit is never exercised. -/
theorem legalSweep_count (mask b0 : Nat) (hb : b0 < MEMBARRIER_BITS)
    (fl : Int) (hfl : fl = 0 ∨ fl = MEMBARRIER_CMD_FLAG_CPU) :
    (legalSweep mask).count ⟨2 ^ b0, fl, 0⟩ =
      if mask.testBit b0 then 1 else 0 := by
  rw [legalSweep, List.count_flatMap]
  apply sum_map_single (List.range MEMBARRIER_BITS) (List.nodup_range _)
    b0 (List.mem_range.2 hb)
  intro b _
  show (legalBlock mask b).count ⟨2 ^ b0, fl, 0⟩ = _
  rw [legalBlock]
  by_cases hp : mask.testBit b
  · rw [if_pos hp]
    by_cases he : b = b0
    · subst he
      rw [if_pos rfl, if_pos hp]
      rcases hfl with rfl | rfl <;>
        simp [List.count_cons, MEMBARRIER_CMD_FLAG_CPU]
    · rw [if_neg he]
      have hcmd : (2 : Nat) ^ b ≠ 2 ^ b0 := by
        intro hcontra
        exact he (Nat.pow_right_injective (by norm_num) hcontra)
      simp [List.count_cons, hcmd]
  · rw [if_neg hp]
    by_cases he : b = b0
    · subst he
      rw [if_pos rfl, if_neg hp]
      simp
    · rw [if_neg he]
      simp

/-- No bit outside the mask contributes a legal (counted) call. -/
theorem legalSweep_mem (mask : Nat) (c : MembarrierCall)
    (hc : c ∈ legalSweep mask) :
    ∃ b, b < MEMBARRIER_BITS ∧ mask.testBit b = true ∧ c.cmd = 2 ^ b := by
  rw [legalSweep] at hc
  obtain ⟨b, hbm, hcb⟩ := List.mem_flatMap.1 hc
  have hcmd := legalBlock_cmd mask b c hcb
  have hp : mask.testBit b = true := by
    by_contra hp
    rw [legalBlock, if_neg hp] at hcb
    simp at hcb
  exact ⟨b, List.mem_range.1 hbm, hp, hcmd⟩

/-- The legal sweep proceeds in increasing bit order: the issued commands are
nondecreasing along the list. -/
theorem legalSweep_pairwise (mask : Nat) :
    (legalSweep mask).Pairwise (fun c c' => c.cmd ≤ c'.cmd) := by
  rw [legalSweep, List.flatMap_def, List.pairwise_flatten]
  constructor
  · intro l hl
    obtain ⟨b, _, rfl⟩ := List.mem_map.1 hl
    rw [legalBlock]
    by_cases hp : mask.testBit b <;> simp [hp]
  · have hmono : ∀ a b : Nat, a < b →
        ∀ x ∈ legalBlock mask a, ∀ y ∈ legalBlock mask b, x.cmd ≤ y.cmd := by
      intro a b hab x hx y hy
      rw [legalBlock_cmd mask a x hx, legalBlock_cmd mask b y hy]
      exact Nat.pow_le_pow_right (by norm_num) (Nat.le_of_lt hab)
    exact List.Pairwise.map (legalBlock mask) hmono (List.pairwise_lt_range _)

/-- Running `find?` over an initial segment of the naturals returns the smallest
witness of the predicate. -/
theorem find?_range_eq_some_of (p : Nat → Bool) (n b : Nat) (hb : b < n)
    (hpb : p b = true) (hmin : ∀ j, j < b → p j = false) :
    (List.range n).find? p = some b := by
  induction n with
  | zero => omega
  | succ n ih =>
      rw [List.range_succ, List.find?_append]
      by_cases hbn : b < n
      · rw [ih hbn]
        rfl
      · have hbe : b = n := by omega
        subst hbe
        have hnone : (List.range b).find? p = none := by
          apply List.find?_eq_none.2
          intro x hx
          rw [List.mem_range] at hx
          simp [hmin x hx]
        rw [hnone]
        simp [List.find?_cons_of_pos _ hpb]

/-! ## C5: capability enumeration completeness -/

/-- C5: one successful exercise cycle performs, as counted legal calls,
exactly one zero-flag invocation and exactly one per-CPU-flag invocation per
set bit of the capability mask, in increasing bit order, and no command
outside the mask; the thread's call counter therefore grows by exactly
`2 × popcount(mask)`. -/
theorem C5_capability_enumeration (mask : Nat) (t : ℚ)
    (info : membarrier_info) (out : ExerciseOutcome)
    (hm : mask < 2 ^ MEMBARRIER_BITS)
    (h : stress_membarrier_exercise (.ok mask) t info = some out) :
    out.legal = legalSweep mask ∧
    out.info.count = info.count + 2 * popCount mask ∧
    (∀ b, b < MEMBARRIER_BITS →
      out.legal.count ⟨2 ^ b, 0, 0⟩ = if mask.testBit b then 1 else 0) ∧
    (∀ b, b < MEMBARRIER_BITS →
      out.legal.count ⟨2 ^ b, MEMBARRIER_CMD_FLAG_CPU, 0⟩ =
        if mask.testBit b then 1 else 0) ∧
    (∀ c ∈ out.legal,
      ∃ b, b < MEMBARRIER_BITS ∧ mask.testBit b = true ∧ c.cmd = 2 ^ b) ∧
    out.legal.Pairwise (fun c c' => c.cmd ≤ c'.cmd) := by
  have hout : out =
      ⟨⟨info.duration + t, info.count + (legalSweep mask).length⟩,
       legalSweep mask, illegalFlagProbes mask, illegalCmdProbe mask⟩ := by
    simp [stress_membarrier_exercise] at h
    exact h.symm
  subst hout
  refine ⟨rfl, ?_, ?_, ?_, ?_, ?_⟩
  · show info.count + ((legalSweep mask).length : ℚ) = _
    rw [legalSweep_length mask hm]
    push_cast
    ring
  · intro b hb
    exact legalSweep_count mask b hb 0 (Or.inl rfl)
  · intro b hb
    exact legalSweep_count mask b hb MEMBARRIER_CMD_FLAG_CPU (Or.inr rfl)
  · intro c hc
    exact legalSweep_mem mask c hc
  · exact legalSweep_pairwise mask

/-- Witness for C5 at the spec's scenario mask `0b0110`: bits 1 and 2 are
each exercised once without and once with the per-CPU flag, in increasing
order, and the counter grows by 4. -/
theorem C5_capability_enumeration_witness :
    (6 : Nat) < 2 ^ MEMBARRIER_BITS ∧
    stress_membarrier_exercise (.ok 6) 0 ⟨0, 0⟩ =
      some ⟨⟨(0 : ℚ) + 0, (0 : ℚ) + ((4 : Nat) : ℚ)⟩,
            [⟨2, 0, 0⟩, ⟨2, 1, 0⟩, ⟨4, 0, 0⟩, ⟨4, 1, 0⟩],
            [⟨2, -1, 0⟩, ⟨2, 0, INT_MAX⟩, ⟨4, -1, 0⟩, ⟨4, 0, INT_MAX⟩],
            some ⟨1, 0, 0⟩⟩ ∧
    ((⟨⟨(0 : ℚ) + 0, (0 : ℚ) + ((4 : Nat) : ℚ)⟩,
       [⟨2, 0, 0⟩, ⟨2, 1, 0⟩, ⟨4, 0, 0⟩, ⟨4, 1, 0⟩],
       [⟨2, -1, 0⟩, ⟨2, 0, INT_MAX⟩, ⟨4, -1, 0⟩, ⟨4, 0, INT_MAX⟩],
       some ⟨1, 0, 0⟩⟩ : ExerciseOutcome).legal = legalSweep 6 ∧
     (⟨⟨(0 : ℚ) + 0, (0 : ℚ) + ((4 : Nat) : ℚ)⟩,
       [⟨2, 0, 0⟩, ⟨2, 1, 0⟩, ⟨4, 0, 0⟩, ⟨4, 1, 0⟩],
       [⟨2, -1, 0⟩, ⟨2, 0, INT_MAX⟩, ⟨4, -1, 0⟩, ⟨4, 0, INT_MAX⟩],
       some ⟨1, 0, 0⟩⟩ : ExerciseOutcome).info.count =
        (⟨0, 0⟩ : membarrier_info).count + 2 * popCount 6 ∧
     (∀ b, b < MEMBARRIER_BITS →
       (⟨⟨(0 : ℚ) + 0, (0 : ℚ) + ((4 : Nat) : ℚ)⟩,
         [⟨2, 0, 0⟩, ⟨2, 1, 0⟩, ⟨4, 0, 0⟩, ⟨4, 1, 0⟩],
         [⟨2, -1, 0⟩, ⟨2, 0, INT_MAX⟩, ⟨4, -1, 0⟩, ⟨4, 0, INT_MAX⟩],
         some ⟨1, 0, 0⟩⟩ : ExerciseOutcome).legal.count ⟨2 ^ b, 0, 0⟩ =
          if (6 : Nat).testBit b then 1 else 0) ∧
     (∀ b, b < MEMBARRIER_BITS →
       (⟨⟨(0 : ℚ) + 0, (0 : ℚ) + ((4 : Nat) : ℚ)⟩,
         [⟨2, 0, 0⟩, ⟨2, 1, 0⟩, ⟨4, 0, 0⟩, ⟨4, 1, 0⟩],
         [⟨2, -1, 0⟩, ⟨2, 0, INT_MAX⟩, ⟨4, -1, 0⟩, ⟨4, 0, INT_MAX⟩],
         some ⟨1, 0, 0⟩⟩ : ExerciseOutcome).legal.count
           ⟨2 ^ b, MEMBARRIER_CMD_FLAG_CPU, 0⟩ =
          if (6 : Nat).testBit b then 1 else 0) ∧
     (∀ c ∈ (⟨⟨(0 : ℚ) + 0, (0 : ℚ) + ((4 : Nat) : ℚ)⟩,
         [⟨2, 0, 0⟩, ⟨2, 1, 0⟩, ⟨4, 0, 0⟩, ⟨4, 1, 0⟩],
         [⟨2, -1, 0⟩, ⟨2, 0, INT_MAX⟩, ⟨4, -1, 0⟩, ⟨4, 0, INT_MAX⟩],
         some ⟨1, 0, 0⟩⟩ : ExerciseOutcome).legal,
       ∃ b, b < MEMBARRIER_BITS ∧ (6 : Nat).testBit b = true ∧
         c.cmd = 2 ^ b) ∧
     (⟨⟨(0 : ℚ) + 0, (0 : ℚ) + ((4 : Nat) : ℚ)⟩,
       [⟨2, 0, 0⟩, ⟨2, 1, 0⟩, ⟨4, 0, 0⟩, ⟨4, 1, 0⟩],
       [⟨2, -1, 0⟩, ⟨2, 0, INT_MAX⟩, ⟨4, -1, 0⟩, ⟨4, 0, INT_MAX⟩],
       some ⟨1, 0, 0⟩⟩ : ExerciseOutcome).legal.Pairwise
         (fun c c' => c.cmd ≤ c'.cmd)) :=
  ⟨by decide, rfl,
   C5_capability_enumeration 6 0 ⟨0, 0⟩ _ (by decide) rfl⟩

/-! ## C6: the illegal-command probe -/

/-- C6: a successful exercise cycle issues at most one illegal-command probe
(the `illegalCmd` component); when the mask has an unset bit in the 32-bit
word, the probe's command is exactly the lowest unset bit, and the probe
leaves the call counter and the duration counter untouched (the counter
moves only by the legal sweep and the duration only by the timed sweep
section). -/
theorem C6_illegal_command_probe (mask : Nat) (t : ℚ)
    (info : membarrier_info) (out : ExerciseOutcome)
    (h : stress_membarrier_exercise (.ok mask) t info = some out)
    (b : Nat) (hb : b < MEMBARRIER_BITS) (hub : mask.testBit b = false)
    (hmin : ∀ j, j < b → mask.testBit j = true) :
    out.illegalCmd = some ⟨2 ^ b, 0, 0⟩ ∧
    out.info.count = info.count + (legalSweep mask).length ∧
    out.info.duration = info.duration + t := by
  have hout : out =
      ⟨⟨info.duration + t, info.count + (legalSweep mask).length⟩,
       legalSweep mask, illegalFlagProbes mask, illegalCmdProbe mask⟩ := by
    simp [stress_membarrier_exercise] at h
    exact h.symm
  subst hout
  refine ⟨?_, rfl, rfl⟩
  show illegalCmdProbe mask = _
  rw [illegalCmdProbe,
    find?_range_eq_some_of (fun j => !mask.testBit j) MEMBARRIER_BITS b hb
      (by simp [hub]) (fun j hj => by simp [hmin j hj])]

/-- Witness for C6 at mask `0b10`: the probe uses bit 0, the lowest unset
bit, and the counters reflect only the two legal calls for bit 1. -/
theorem C6_illegal_command_probe_witness :
    stress_membarrier_exercise (.ok 2) 0 ⟨0, 0⟩ =
      some ⟨⟨(0 : ℚ) + 0, (0 : ℚ) + ((2 : Nat) : ℚ)⟩,
            [⟨2, 0, 0⟩, ⟨2, 1, 0⟩], [⟨2, -1, 0⟩, ⟨2, 0, INT_MAX⟩],
            some ⟨1, 0, 0⟩⟩ ∧
    (0 : Nat) < MEMBARRIER_BITS ∧ (2 : Nat).testBit 0 = false ∧
    ((⟨⟨(0 : ℚ) + 0, (0 : ℚ) + ((2 : Nat) : ℚ)⟩,
       [⟨2, 0, 0⟩, ⟨2, 1, 0⟩], [⟨2, -1, 0⟩, ⟨2, 0, INT_MAX⟩],
       some ⟨1, 0, 0⟩⟩ : ExerciseOutcome).illegalCmd = some ⟨2 ^ 0, 0, 0⟩ ∧
     (⟨⟨(0 : ℚ) + 0, (0 : ℚ) + ((2 : Nat) : ℚ)⟩,
       [⟨2, 0, 0⟩, ⟨2, 1, 0⟩], [⟨2, -1, 0⟩, ⟨2, 0, INT_MAX⟩],
       some ⟨1, 0, 0⟩⟩ : ExerciseOutcome).info.count =
        (⟨0, 0⟩ : membarrier_info).count + (legalSweep 2).length ∧
     (⟨⟨(0 : ℚ) + 0, (0 : ℚ) + ((2 : Nat) : ℚ)⟩,
       [⟨2, 0, 0⟩, ⟨2, 1, 0⟩], [⟨2, -1, 0⟩, ⟨2, 0, INT_MAX⟩],
       some ⟨1, 0, 0⟩⟩ : ExerciseOutcome).info.duration =
        (⟨0, 0⟩ : membarrier_info).duration + 0) :=
  ⟨rfl, by decide, by decide,
   C6_illegal_command_probe 2 0 ⟨0, 0⟩ _ rfl 0 (by decide) (by decide)
     (fun j hj => absurd hj (Nat.not_lt_zero j))⟩

/-! ## C7: metric aggregation -/

/-- The aggregation fold computes the componentwise sums. -/
theorem stress_membarrier_totals_eq (infos : List membarrier_info) :
    stress_membarrier_totals infos =
      ((infos.map (fun i => i.duration)).sum,
       (infos.map (fun i => i.count)).sum) := by
  have key : ∀ (l : List membarrier_info) (a b : ℚ),
      l.foldl (fun acc i => (acc.1 + i.duration, acc.2 + i.count)) (a, b) =
        (a + (l.map (fun i => i.duration)).sum,
         b + (l.map (fun i => i.count)).sum) := by
    intro l
    induction l with
    | nil => intro a b; simp
    | cons i l ih =>
        intro a b
        rw [List.foldl_cons, ih]
        simp
        constructor <;> ring
  rw [stress_membarrier_totals, key]
  simp

/-- C7: the reported rate is the quotient of the total call count by the
total duration across all `pool + coordinator` metric slots when the total
duration is positive, and `0` when the total duration is zero (the
zero-duration case produces the value `0`, not an error path). -/
theorem C7_metric_aggregation (infos : List membarrier_info) :
    stress_membarrier_totals infos =
      ((infos.map (fun i => i.duration)).sum,
       (infos.map (fun i => i.count)).sum) ∧
    (0 < (infos.map (fun i => i.duration)).sum →
      stress_membarrier_rate infos =
        (infos.map (fun i => i.count)).sum /
          (infos.map (fun i => i.duration)).sum) ∧
    ((infos.map (fun i => i.duration)).sum = 0 →
      stress_membarrier_rate infos = 0) := by
  refine ⟨stress_membarrier_totals_eq infos, ?_, ?_⟩
  · intro hpos
    rw [stress_membarrier_rate, stress_membarrier_totals_eq infos]
    simp [hpos]
  · intro hzero
    rw [stress_membarrier_rate, stress_membarrier_totals_eq infos]
    simp [hzero]

/-- Witness for C7 with one slot of duration 1 and count 2, and one
zero-duration slot list. -/
theorem C7_metric_aggregation_witness :
    (0 < (([⟨1, 2⟩] : List membarrier_info).map (fun i => i.duration)).sum ∧
      stress_membarrier_rate [⟨1, 2⟩] =
        (([⟨1, 2⟩] : List membarrier_info).map (fun i => i.count)).sum /
          (([⟨1, 2⟩] : List membarrier_info).map (fun i => i.duration)).sum) ∧
    ((([] : List membarrier_info).map (fun i => i.duration)).sum = 0 ∧
      stress_membarrier_rate [] = 0) :=
  ⟨⟨by norm_num, (C7_metric_aggregation [⟨1, 2⟩]).2.1 (by norm_num)⟩,
   ⟨by norm_num, (C7_metric_aggregation []).2.2 (by norm_num)⟩⟩

/-! ## C8: the capability precheck -/

/-- C8: the stressor skips (`EXIT_NOT_IMPLEMENTED`) exactly when the
capability query fails with `ENOSYS` or succeeds without the
`MEMBARRIER_CMD_SHARED` bit; it fails (`EXIT_FAILURE`) exactly when the
query fails with any other errno; and the worker threads are created
(`proceed`) exactly when the query succeeds with the required bit present. -/
theorem C8_precheck_classification (q : Except Nat Nat) :
    (stress_membarrier_precheck q = .not_implemented ↔
      q = .error ENOSYS ∨ ∃ r, q = .ok r ∧ r.testBit 0 = false) ∧
    (stress_membarrier_precheck q = .failure ↔
      ∃ e, q = .error e ∧ e ≠ ENOSYS) ∧
    (stress_membarrier_precheck q = .proceed ↔
      ∃ r, q = .ok r ∧ r.testBit 0 = true) := by
  have hbit : ∀ r : Nat, r &&& MEMBARRIER_CMD_SHARED = 0 ↔
      r.testBit 0 = false := by
    intro r
    rw [MEMBARRIER_CMD_SHARED, Nat.and_one_is_mod, Nat.testBit_zero]
    rcases Nat.mod_two_eq_zero_or_one r with h0 | h0 <;> simp [h0]
  rcases q with e | r
  · by_cases he : e = ENOSYS <;>
      simp [stress_membarrier_precheck, he]
  · by_cases hr : r &&& MEMBARRIER_CMD_SHARED = 0
    · have hb0 := (hbit r).1 hr
      have h2 : r % 2 = 0 := by
        rw [Nat.testBit_zero] at hb0
        simp at hb0
        omega
      simp [stress_membarrier_precheck, hr, (hbit r).1 hr]
      omega
    · have hb : r.testBit 0 = true := by
        rcases Bool.eq_false_or_eq_true (r.testBit 0) with h | h
        · exact h
        · exact absurd ((hbit r).2 h) hr
      have h2 : r % 2 = 1 := by
        rw [Nat.testBit_zero] at hb
        simpa using hb
      simp [stress_membarrier_precheck, hr, hb]
      omega

end StressNG
